import Mathlib

/-!
Verification development for the `approved` validation / error-normalization
library (source of truth: src/dist/index.js, src/dist/validators/isFQDN.js and
the unnamed source parts).

The JavaScript code is shallowly embedded: JSON-like values become the
inductive `JsValue`; promise-returning functions that may reject become
functions into `Except`; the engines (`Approval.validateInput`,
`Approval.handleError`) become total Lean functions returning `Except`,
with each possible thrown value represented by an explicit error constructor.
Since both engines evaluate rules strictly sequentially (awaiting each
predicate before moving on), the sequential `Except` embedding is faithful.
-/

/-- A JSON-like JavaScript value, as flows through the validation engine
(input objects, field values, validator options, run contexts). -/
inductive JsValue where
  | null
  | bool (b : Bool)
  | num (n : Int)
  | str (s : String)
  | arr (elems : List JsValue)
  | obj (fields : List (String × JsValue))

/-- True exactly when the value is a JS string (`typeof v === "string"`). -/
def JsValue.isStr : JsValue → Bool
  | .str _ => true
  | _ => false

/-- Lookup of a property on an object field list (first binding wins). -/
def lookupField (key : String) : List (String × JsValue) → Option JsValue
  | [] => none
  | (k, v) :: rest => if k = key then some v else lookupField key rest

/-- Modelled from the spec (section 4.1 Path Accessor): one descent step of the
external dottie accessor (the dottie package is a dependency, not part of this
repository): an object is indexed by key; an array by a numeric-looking
segment; anything else is not indexable. -/
def JsValue.step (v : JsValue) (seg : String) : Option JsValue :=
  match v with
  | .obj fields => lookupField seg fields
  | .arr elems => seg.toNat?.bind fun i => elems.get? i
  | _ => none

/-- Modelled from the spec (section 4.1 Path Accessor): descend through all
segments of an already-split dotted path. -/
def JsValue.descend : JsValue → List String → Option JsValue
  | v, [] => some v
  | v, seg :: rest => match v.step seg with
    | some v' => JsValue.descend v' rest
    | none => none

/-- Modelled from the spec (section 4.1 Path Accessor): the external
`dottie.get(container, path, default)` used by `validateInput`; splits `path`
on `.` and descends, returning the default when any segment is missing.
The engine always passes `null` as the default. -/
def dget (container : JsValue) (path : String) (dflt : JsValue) : JsValue :=
  match container.descend (path.splitOn ".") with
  | some v => v
  | none => dflt

/-- The unit of normalized output: `{path, message}` (spec: FieldError). -/
structure FieldError where
  path : String
  message : String
deriving DecidableEq, Repr

/-- Embedding of `class ValidationError` (src/dist/index.js lines 20-31): an
error value carrying a name, a numeric code, a message and the errors list. -/
structure ValidationError where
  name : String
  code : Int
  message : String
  errors : List FieldError
deriving DecidableEq, Repr

/-- The `ValidationError` constructor body: sets `name` to "ValidationError",
`code` to 422 and stores the errors list and the message. -/
def ValidationError.make (errors : List FieldError) (message : String) : ValidationError :=
  { name := "ValidationError", code := 422, message := message, errors := errors }

/-- `new ValidationError(errors)` with the constructor's default message. -/
def ValidationError.ofErrors (errors : List FieldError) : ValidationError :=
  ValidationError.make errors "Validation failed"

/-- A validation rule `{path, validator, options?, message}` (the elements of
the `validations` argument of `validateInput`). An absent `options` property
is `none`; the engine substitutes `{}` (spec: ValidationRule). -/
structure VRule where
  path : String
  validator : String
  options : Option JsValue
  message : String

/-- A validator predicate `(value, options, runContext)`; it may reject with a
thrown value of type `ε` (the engine never catches such a throw). -/
def Validator (ε : Type) : Type :=
  JsValue → JsValue → JsValue → Except ε Bool

/-- A validator registry: the `this.validators` mapping from name to predicate
(mutable at the instance level in JS, hence a parameter here). -/
def Registry (ε : Type) : Type :=
  String → Option (Validator ε)

/-- The values `validateInput` can throw: the aggregated `ValidationError`,
the plain `Error` raised for an unknown validator name (which carries only the
offending name, no errors list), or a value thrown by a predicate itself. -/
inductive VErr (ε : Type) where
  | validation (ve : ValidationError)
  | unknownValidator (name : String)
  | thrown (e : ε)
deriving DecidableEq

/-- True exactly on the aggregated-validation-failure constructor. -/
def VErr.isValidation : VErr ε → Bool
  | .validation _ => true
  | _ => false

/-- The errors list carried by a thrown value: only a `ValidationError`
carries one. -/
def VErr.carriedErrors : VErr ε → Option (List FieldError)
  | .validation ve => some ve.errors
  | _ => none

/-- One iteration of the `validateInput` loop body for a rule: resolve the
validator by name (`throw new Error(...)` when absent), read the value with
`dottie.get(input, path, null)`, and invoke the predicate with
`(value, validation.options or an empty object, options)` (src/dist/index.js
lines 91-99). -/
def ruleOutcome (reg : Registry ε) (input : JsValue) (ctx : JsValue) (r : VRule) :
    Except (VErr ε) Bool :=
  match reg r.validator with
  | none => .error (.unknownValidator r.validator)
  | some validator =>
    match validator (dget input r.path .null) (r.options.getD (.obj [])) ctx with
    | .ok b => .ok b
    | .error e => .error (.thrown e)

/-- True when the rule's predicate ran and returned false (the rule fails). -/
def ruleFails (reg : Registry ε) (input : JsValue) (ctx : JsValue) (r : VRule) : Bool :=
  match ruleOutcome reg input ctx r with
  | .ok false => true
  | _ => false

/-- The `for (let validation of validations)` loop of `validateInput`
(src/dist/index.js lines 87-103): evaluate rules in order, accumulating
`{path, message}` for each rule whose predicate yields false; any throw ends
the loop immediately. -/
def runRules (reg : Registry ε) (input : JsValue) (ctx : JsValue) :
    List VRule → List FieldError → Except (VErr ε) (List FieldError)
  | [], acc => .ok acc
  | r :: rest, acc =>
    match ruleOutcome reg input ctx r with
    | .error e => .error e
    | .ok true => runRules reg input ctx rest acc
    | .ok false => runRules reg input ctx rest (acc ++ [⟨r.path, r.message⟩])

/-- Embedding of `Approval.showValidationError` (src/dist/index.js lines
67-76): throw `new ValidationError(errors)` when the list is non-empty,
otherwise return normally. The `options` argument is accepted and unused,
as in the source. -/
def showValidationError (errors : List FieldError) (options : JsValue) :
    Except (VErr ε) Unit :=
  if errors.length > 0 then .error (.validation (ValidationError.ofErrors errors)) else .ok ()

/-- Embedding of `Approval.validateInput` (src/dist/index.js lines 78-107):
run all rules in order, then `showValidationError` on the accumulated list.
Normal return is `.ok ()` (success is silence); every `throw`/rejection is an
`.error`. -/
def validateInput (reg : Registry ε) (input : JsValue) (validations : List VRule)
    (ctx : JsValue) : Except (VErr ε) Unit :=
  match runRules reg input ctx validations [] with
  | .error e => .error e
  | .ok errors => showValidationError errors ctx

/-- The ordered failure entries of a rule list: one `{path, message}` per
failing rule, in rule-list order (the characterization `validateInput` is
proved against). -/
def failedEntries (reg : Registry ε) (input : JsValue) (ctx : JsValue)
    (rules : List VRule) : List FieldError :=
  (rules.filter (ruleFails reg input ctx)).map fun r => ⟨r.path, r.message⟩

/-- A JS value usable as an error `code` attribute, compared with strict
equality (`===`): numbers and strings (the engine's own codes are numbers,
e.g. 422). An absent attribute is modelled as `none` (JS `undefined`). -/
inductive JsCode where
  | num (n : Int)
  | str (s : String)
deriving DecidableEq, Repr

/-- The value of a handler rule's `error` field. In JS this is an arbitrary
value; in practice a string (kind name), a class/constructor (whose runtime
`typeof` is "function"), or a plain object (whose runtime `typeof` is
"object"). `κ` identifies constructors, for the `instanceof` relation. -/
inductive ErrField (κ : Type) where
  | str (s : String)
  | classRef (k : κ)
  | objRef (k : κ)
deriving DecidableEq

/-- The ECMAScript `typeof` of the `error` field value: a string is "string",
a class or any other function is "function", a non-function object is
"object". -/
def ErrField.typeofStr : ErrField κ → String
  | .str _ => "string"
  | .classRef _ => "function"
  | .objRef _ => "object"

/-- An arbitrary thrown runtime error value, as inspected by `handleError`:
its `name` attribute, optional `code` attribute (`none` when the error
exposes no code), the set of constructors it is an `instanceof`, whether it
is an `instanceof ValidationError`, and its `errors` attribute (meaningful
for ValidationError values). -/
structure JsError (κ : Type) where
  name : String
  code : Option JsCode
  instOf : List κ
  isVE : Bool
  errors : List FieldError

/-- Strict equality `handlerCandidate.error === err.name`: true only when the
field is the very same string (values of different JS types are never
strictly equal). -/
def strictEqName : ErrField κ → String → Bool
  | .str s, n => s == n
  | _, _ => false

/-- Throw values of the handler engine: the TypeError raised by
`err instanceof x` when `x` is not callable, or a value thrown by a rule's
`block`. -/
inductive HThrow (ε : Type) where
  | typeError
  | blockThrew (e : ε)
deriving DecidableEq

/-- The ECMAScript `instanceof` operator applied as `err instanceof field`:
for a constructor it asks whether the constructor is in the error's prototype
chain; for any non-callable right operand it throws a TypeError. -/
def instanceOf [DecidableEq κ] (err : JsError κ) : ErrField κ → Except (HThrow ε) Bool
  | .classRef k => .ok (err.instOf.contains k)
  | _ => .error .typeError

/-- The name check of `handleError` (src/dist/index.js lines 122-124):
`handlerCandidate.error === err.name || typeof handlerCandidate.error ===
'object' && err instanceof handlerCandidate.error`. Note that a class
reference has `typeof` "function", not "object", so the `instanceof`
alternative is never reached for class references. -/
def kindMatch [DecidableEq κ] (f : ErrField κ) (err : JsError κ) : Except (HThrow ε) Bool :=
  if strictEqName f err.name then .ok true
  else if f.typeofStr = "object" then instanceOf err f
  else .ok false

/-- The code check of `handleError` (src/dist/index.js lines 127-129):
`typeof handlerOptions.code === 'undefined' || handlerOptions.code ===
err.code`. A defined code is never strictly equal to an absent (undefined)
one. -/
def codeMatch (optCode : Option JsCode) (errCode : Option JsCode) : Bool :=
  match optCode with
  | none => true
  | some c => match errCode with
    | some c' => c == c'
    | none => false

/-- A handler rule's `options` object: optional `code` and optional `block`
predicate `(err, runContext)`, which may be asynchronous and may throw. -/
structure HandlerOpts (κ ε : Type) where
  code : Option JsCode
  block : Option (JsError κ → JsValue → Except ε Bool)

/-- A handler rule `{path, error, options?, message}` (spec: HandlerRule). -/
structure HandlerRule (κ ε : Type) where
  path : String
  error : ErrField κ
  options : Option (HandlerOpts κ ε)
  message : String

/-- One iteration of the `handleError` scanning loop (src/dist/index.js lines
119-139): with `handlerOptions = handlerCandidate.options || an empty
object`, the candidate matches when the name check, then the code check, then
the block check all pass; the block is only invoked when the first two
checks passed. -/
def ruleMatch [DecidableEq κ] (r : HandlerRule κ ε) (err : JsError κ) (ctx : JsValue) :
    Except (HThrow ε) Bool :=
  let o := r.options.getD ⟨none, none⟩
  match kindMatch r.error err with
  | .error t => .error t
  | .ok false => .ok false
  | .ok true =>
    if !codeMatch o.code err.code then .ok false
    else match o.block with
      | none => .ok true
      | some b =>
        match b err ctx with
        | .ok v => .ok v
        | .error e => .error (.blockThrew e)

/-- The scan of `handleError`: first candidate whose `ruleMatch` yields true,
in list order, stopping there (`break`); `none` when the list is exhausted. -/
def findHandler [DecidableEq κ] (err : JsError κ) (ctx : JsValue) :
    List (HandlerRule κ ε) → Except (HThrow ε) (Option (HandlerRule κ ε))
  | [] => .ok none
  | r :: rest =>
    match ruleMatch r err ctx with
    | .error t => .error t
    | .ok true => .ok (some r)
    | .ok false => findHandler err ctx rest

/-- Embedding of `Approval.handleError` (src/dist/index.js lines 109-151): a
`ValidationError` short-circuits to its own `errors` list; otherwise the
handlers are scanned in order and the first match produces the single-element
list `[{path, message}]`; with no match the JS `null` sentinel — modelled as
`none`, distinct from `some []` — is returned. -/
def handleError [DecidableEq κ] (err : JsError κ) (handlers : List (HandlerRule κ ε))
    (ctx : JsValue) : Except (HThrow ε) (Option (List FieldError)) :=
  if err.isVE then .ok (some err.errors)
  else
    match findHandler err ctx handlers with
    | .error t => .error t
    | .ok (some h) => .ok (some [⟨h.path, h.message⟩])
    | .ok none => .ok none

/-- The matching predicate as the spec words it (section 4.4, used only to
compare against the source's `ruleMatch`): kind match is name equality OR,
for a concrete kind reference, the `instanceof` classification; code and
block checks as in the source. -/
def specKindMatch [DecidableEq κ] (f : ErrField κ) (err : JsError κ) : Bool :=
  match f with
  | .str s => s == err.name
  | .classRef k => err.instOf.contains k
  | .objRef k => err.instOf.contains k

/-- Spec-side wording of a full rule match (section 4.4): all three of kind
match, code match and block predicate (absent or yielding true). -/
def specRuleMatch [DecidableEq κ] (r : HandlerRule κ ε) (err : JsError κ) (ctx : JsValue) :
    Except (HThrow ε) Bool :=
  let o := r.options.getD ⟨none, none⟩
  if !specKindMatch r.error err then .ok false
  else if !codeMatch o.code err.code then .ok false
  else match o.block with
    | none => .ok true
    | some b =>
      match b err ctx with
      | .ok v => .ok v
      | .error e => .error (.blockThrew e)

/-- Options of the `isFQDN` wrapper with their absent/present state; an absent
entry gets the wrapper's default. -/
structure FQDNOpts where
  requireTld : Option Bool
  allowUnderscores : Option Bool
  allowTrailingDot : Option Bool

/-- Embedding of the `isFQDN` wrapper (src/dist/validators/isFQDN.js lines
8-27): the underlying `validator.isFQDN` of the external validator package is
the parameter `core` (its three option flags passed positionally:
require_tld, allow_underscores, allow_trailing_dot); the wrapper calls it
only on strings and returns false on every other value. -/
def isFQDN (core : String → Bool → Bool → Bool → Except ε Bool)
    (str : JsValue) (opts : FQDNOpts) : Except ε Bool :=
  match str with
  | .str s => core s (opts.requireTld.getD true) (opts.allowUnderscores.getD false)
      (opts.allowTrailingDot.getD false)
  | _ => .ok false

/-- Options of the `isURL` wrapper with their absent/present state. -/
structure URLOpts where
  protocols : Option (List String)
  requireTld : Option Bool
  requireProtocol : Option Bool
  requireValidProtocol : Option Bool
  allowUnderscores : Option Bool
  allowTrailingDot : Option Bool
  allowProtocolRelativeUrls : Option Bool

/-- The option record handed to the external `validator.isURL`. -/
structure URLCoreOpts where
  protocols : List String
  require_tld : Bool
  require_protocol : Bool
  require_valid_protocol : Bool
  allow_underscores : Bool
  allow_trailing_dot : Bool
  allow_protocol_relative_urls : Bool

/-- Embedding of the `isURL` wrapper (src/dist/validators/isFQDN.js lines
83-97): the external `validator.isURL` is the parameter `core`; the wrapper
calls it only on strings, with defaults filled in, and returns false on every
other value. -/
def isURL (core : String → URLCoreOpts → Except ε Bool)
    (str : JsValue) (opts : URLOpts) : Except ε Bool :=
  match str with
  | .str s => core s
      { protocols := opts.protocols.getD ["http", "https", "ftp"]
        require_tld := opts.requireTld.getD true
        require_protocol := opts.requireProtocol.getD true
        require_valid_protocol := opts.requireValidProtocol.getD true
        allow_underscores := opts.allowUnderscores.getD false
        allow_trailing_dot := opts.allowTrailingDot.getD false
        allow_protocol_relative_urls := opts.allowProtocolRelativeUrls.getD false }
  | _ => .ok false

/-- Options of the `isValid` validator: an optional caller-supplied `block`
(absent, or any non-function value, means calling it throws a TypeError). -/
structure IsValidOpts (ε : Type) where
  block : Option (JsValue → JsValue → Except ε Bool)

/-- The ways `isValid` can reject: the TypeError from invoking a missing
block, or a value thrown by the block itself. -/
inductive IsValidErr (ε : Type) where
  | notAFunction
  | blockThrew (e : ε)
deriving DecidableEq

/-- Embedding of the `isValid` validator (src/unnamed/part_002 lines 5-16):
`async (value, obj, options) => await obj.block(value, options)`. With a
block present the result is exactly the awaited result of
`block(value, options)`; with no block, `block(value, options)` is a call on
undefined and the returned promise rejects with a TypeError. -/
def isValid (value : JsValue) (opts : IsValidOpts ε) (ctx : JsValue) :
    Except (IsValidErr ε) Bool :=
  match opts.block with
  | some b =>
    match b value ctx with
    | .ok v => .ok v
    | .error e => .error (.blockThrew e)
  | none => .error .notAFunction

/-- A ValidationError instance as seen by `handleError`: it satisfies the
`instanceof ValidationError` test and exposes the constructor-set attributes
(`name`, `code`) and its `errors` list. Constructor identities other than
ValidationError itself are irrelevant to `handleError` and left empty. -/
def ValidationError.toJsError (ve : ValidationError) : JsError κ :=
  { name := ve.name, code := some (.num ve.code), instOf := [], isVE := true,
    errors := ve.errors }

/-- A predicate that accepts every value (sample registry entry). -/
def alwaysTrueV : Validator Unit := fun _ _ _ => .ok true

/-- A predicate that rejects every value (sample registry entry). -/
def alwaysFalseV : Validator Unit := fun _ _ _ => .ok false

/-- A sample instance registry holding two custom predicates (the JS registry
is instance-level mutable data, so its contents are arbitrary). -/
def sampleReg : Registry Unit := fun name =>
  if name = "alwaysTrue" then some alwaysTrueV
  else if name = "alwaysFalse" then some alwaysFalseV
  else none

/-- An empty run context, the engines' default. -/
def ctx0 : JsValue := .obj []

/-- A sample input object. -/
def inputA : JsValue := .obj [("a", .str "x")]

/-- Sample rules over `sampleReg`. -/
def ruleT : VRule := ⟨"a", "alwaysTrue", none, "mT"⟩

def ruleF1 : VRule := ⟨"a", "alwaysFalse", none, "m1"⟩

def ruleF2 : VRule := ⟨"c", "alwaysFalse", none, "m2"⟩

def ruleBad : VRule := ⟨"b", "nope", none, "mB"⟩

/-- A plain runtime error, as in the repository test: `new Error(...)` has
name "Error" and is an instance of the `Error` constructor. -/
def errPlain : JsError String :=
  ⟨"Error", none, ["Error"], false, []⟩

def hRuleFirst : HandlerRule String Unit := ⟨"system", .str "Error", none, "first"⟩

def hRuleSecond : HandlerRule String Unit := ⟨"system", .str "Error", none, "second"⟩

def hRuleNoMatch : HandlerRule String Unit := ⟨"system", .str "RangeError", none, "no"⟩

/-- A custom runtime error that is an instance of the `CustomError`
constructor but whose `name` attribute is a different string. -/
def errCustom : JsError String :=
  ⟨"SomeError", none, ["CustomError"], false, []⟩

/-- A handler rule whose `error` field is the concrete `CustomError` class
reference itself. -/
def hRuleClassRef : HandlerRule String Unit :=
  ⟨"system", .classRef "CustomError", none, "custom failed"⟩

/-- An FQDN core that rejects on every string: used to show the wrapper never
even consults the core on non-strings. -/
def throwingFQDNCore : String → Bool → Bool → Bool → Except Unit Bool :=
  fun _ _ _ _ => .error ()

/-- A URL core that rejects on every string. -/
def throwingURLCore : String → URLCoreOpts → Except Unit Bool :=
  fun _ _ => .error ()

/-- A caller-supplied block accepting every value. -/
def blockTrue : JsValue → JsValue → Except Unit Bool := fun _ _ => .ok true

example : validateInput sampleReg inputA [ruleT] ctx0 = .ok () := rfl

example : validateInput sampleReg inputA [ruleF1, ruleT, ruleF2] ctx0 =
    .error (.validation (ValidationError.ofErrors [⟨"a", "m1"⟩, ⟨"c", "m2"⟩])) := rfl

example : failedEntries sampleReg inputA ctx0 [ruleF1, ruleT, ruleF2] = [⟨"a", "m1"⟩, ⟨"c", "m2"⟩] := rfl

example : validateInput sampleReg inputA [ruleF1, ruleBad, ruleT] ctx0 =
    .error (.unknownValidator "nope") := rfl

example : handleError errPlain [hRuleFirst, hRuleSecond] ctx0 = .ok (some [⟨"system", "first"⟩]) := rfl

example : handleError errCustom [hRuleClassRef] ctx0 = .ok none := rfl

example : specRuleMatch hRuleClassRef errCustom ctx0 = .ok true := rfl

example : handleError errPlain ([] : List (HandlerRule String Unit)) ctx0 = .ok none := rfl

example : handleError (ValidationError.toJsError (ValidationError.ofErrors [⟨"name", "must be present"⟩]))
    [hRuleFirst] ctx0 = .ok (some [⟨"name", "must be present"⟩]) := rfl

example : isValid (.str "x") ⟨some blockTrue⟩ ctx0 = .ok true := rfl

example : isValid (.str "x") (⟨none⟩ : IsValidOpts Unit) ctx0 = .error .notAFunction := rfl

example : isFQDN throwingFQDNCore (.num 42) ⟨none, none, none⟩ = .ok false := rfl

theorem failedEntries_nil (reg : Registry ε) (input ctx : JsValue) :
    failedEntries reg input ctx [] = [] := rfl

theorem failedEntries_cons (reg : Registry ε) (input ctx : JsValue) (r : VRule)
    (rs : List VRule) :
    failedEntries reg input ctx (r :: rs) =
      (if ruleFails reg input ctx r then [⟨r.path, r.message⟩] else [])
        ++ failedEntries reg input ctx rs := by
  simp only [failedEntries, List.filter_cons]
  split <;> simp

theorem ruleFails_of_ok_true (reg : Registry ε) (input ctx : JsValue) (r : VRule)
    (h : ruleOutcome reg input ctx r = .ok true) : ruleFails reg input ctx r = false := by
  simp [ruleFails, h]

theorem ruleFails_of_ok_false (reg : Registry ε) (input ctx : JsValue) (r : VRule)
    (h : ruleOutcome reg input ctx r = .ok false) : ruleFails reg input ctx r = true := by
  simp [ruleFails, h]

theorem runRules_append (reg : Registry ε) (input ctx : JsValue) (pre rest : List VRule)
    (acc : List FieldError)
    (H : ∀ r ∈ pre, ∃ b, ruleOutcome reg input ctx r = .ok b) :
    runRules reg input ctx (pre ++ rest) acc =
      runRules reg input ctx rest (acc ++ failedEntries reg input ctx pre) := by
  induction pre generalizing acc with
  | nil => simp [failedEntries_nil]
  | cons r pre ih =>
    obtain ⟨b, hb⟩ := H r (List.mem_cons_self r pre)
    have Hpre : ∀ r' ∈ pre, ∃ b, ruleOutcome reg input ctx r' = .ok b :=
      fun r' hr' => H r' (List.mem_cons_of_mem r hr')
    cases b with
    | true =>
      have hstep : runRules reg input ctx ((r :: pre) ++ rest) acc =
          runRules reg input ctx (pre ++ rest) acc := by
        simp [List.cons_append, runRules, hb]
      rw [hstep, ih acc Hpre, failedEntries_cons,
        ruleFails_of_ok_true reg input ctx r hb]
      simp
    | false =>
      have hstep : runRules reg input ctx ((r :: pre) ++ rest) acc =
          runRules reg input ctx (pre ++ rest) (acc ++ [⟨r.path, r.message⟩]) := by
        simp [List.cons_append, runRules, hb]
      rw [hstep]
      rw [ih (acc ++ [FieldError.mk r.path r.message]) Hpre]
      rw [failedEntries_cons, ruleFails_of_ok_false reg input ctx r hb]
      simp

theorem runRules_total (reg : Registry ε) (input ctx : JsValue) (rules : List VRule)
    (H : ∀ r ∈ rules, ∃ b, ruleOutcome reg input ctx r = .ok b) :
    runRules reg input ctx rules [] = .ok (failedEntries reg input ctx rules) := by
  have h := runRules_append reg input ctx rules [] [] H
  simpa [runRules] using h

theorem failedEntries_eq_nil_iff (reg : Registry ε) (input ctx : JsValue)
    (rules : List VRule)
    (H : ∀ r ∈ rules, ∃ b, ruleOutcome reg input ctx r = .ok b) :
    failedEntries reg input ctx rules = [] ↔
      ∀ r ∈ rules, ruleOutcome reg input ctx r = .ok true := by
  simp only [failedEntries, List.map_eq_nil_iff, List.filter_eq_nil_iff]
  constructor
  · intro h r hr
    obtain ⟨b, hb⟩ := H r hr
    cases b with
    | true => exact hb
    | false => exact absurd (ruleFails_of_ok_false reg input ctx r hb) (by simpa using h r hr)
  · intro h r hr
    simp [ruleFails_of_ok_true reg input ctx r (h r hr)]

/-- Claim C1: with every rule's validator name resolving and no predicate
throwing, validateInput returns normally exactly when every rule's predicate
returns true; otherwise it raises a ValidationError whose errors list has
exactly one entry with the rule's path and message per failing rule, in rule
order, its length the count of failing rules. -/
theorem approval_c1 (reg : Registry ε) (input : JsValue) (rules : List VRule)
    (ctx : JsValue)
    (H : ∀ r ∈ rules, ∃ b, ruleOutcome reg input ctx r = .ok b) :
    (validateInput reg input rules ctx = .ok () ↔
      ∀ r ∈ rules, ruleOutcome reg input ctx r = .ok true)
  ∧ (failedEntries reg input ctx rules ≠ [] →
      validateInput reg input rules ctx =
        .error (.validation (ValidationError.ofErrors (failedEntries reg input ctx rules))))
  ∧ (failedEntries reg input ctx rules =
      (rules.filter (ruleFails reg input ctx)).map fun r => ⟨r.path, r.message⟩)
  ∧ (failedEntries reg input ctx rules).length = rules.countP (ruleFails reg input ctx) := by
  have hrun : validateInput reg input rules ctx =
      showValidationError (failedEntries reg input ctx rules) ctx := by
    rw [validateInput, runRules_total reg input ctx rules H]
  refine ⟨?_, ?_, rfl, ?_⟩
  · rw [hrun, ← failedEntries_eq_nil_iff reg input ctx rules H]
    cases h : failedEntries reg input ctx rules with
    | nil => simp [showValidationError]
    | cons e rest => simp [showValidationError]
  · intro hne
    rw [hrun]
    cases h : failedEntries reg input ctx rules with
    | nil => exact absurd h hne
    | cons e rest => simp [showValidationError]
  · simp [failedEntries, List.countP_eq_length_filter]

/-- Claim C1 witness: a passing run and a failing run at concrete inputs. -/
theorem approval_c1_witness :
    validateInput sampleReg inputA [ruleT] ctx0 = .ok ()
  ∧ validateInput sampleReg inputA [ruleF1, ruleT, ruleF2] ctx0 =
      .error (.validation (ValidationError.ofErrors [⟨"a", "m1"⟩, ⟨"c", "m2"⟩])) := by
  have H1 : ∀ r ∈ [ruleT], ∃ b, ruleOutcome sampleReg inputA ctx0 r = .ok b := by
    intro r hr
    simp only [List.mem_singleton] at hr
    subst hr
    exact ⟨true, rfl⟩
  have H3 : ∀ r ∈ [ruleF1, ruleT, ruleF2], ∃ b, ruleOutcome sampleReg inputA ctx0 r = .ok b := by
    intro r hr
    simp only [List.mem_cons, List.not_mem_nil, or_false] at hr
    rcases hr with h | h | h <;> subst h
    · exact ⟨false, rfl⟩
    · exact ⟨true, rfl⟩
    · exact ⟨false, rfl⟩
  have hfe : failedEntries sampleReg inputA ctx0 [ruleF1, ruleT, ruleF2] =
      [⟨"a", "m1"⟩, ⟨"c", "m2"⟩] := rfl
  refine ⟨(approval_c1 sampleReg inputA [ruleT] ctx0 H1).1.mpr ?_, ?_⟩
  · intro r hr
    simp only [List.mem_singleton] at hr
    subst hr
    rfl
  · have h2 := (approval_c1 sampleReg inputA [ruleF1, ruleT, ruleF2] ctx0 H3).2.1
      (by rw [hfe]; simp)
    rw [hfe] at h2
    exact h2

theorem ruleOutcome_no_validation (reg : Registry ε) (input ctx : JsValue) (r : VRule)
    (ve : ValidationError) : ruleOutcome reg input ctx r ≠ .error (.validation ve) := by
  unfold ruleOutcome
  split
  · simp
  · split <;> simp

theorem runRules_no_validation (reg : Registry ε) (input ctx : JsValue)
    (rules : List VRule) (acc : List FieldError) (ve : ValidationError) :
    runRules reg input ctx rules acc ≠ .error (.validation ve) := by
  induction rules generalizing acc with
  | nil => simp [runRules]
  | cons r rest ih =>
    rw [runRules]
    cases h : ruleOutcome reg input ctx r with
    | error e =>
      simp only []
      intro hcontra
      have : e = .validation ve := by simpa using hcontra
      exact ruleOutcome_no_validation reg input ctx r ve (this ▸ h)
    | ok b => cases b <;> simp only [] <;> exact ih _

/-- Claim C7: every value raised by the validation engine as a validation
failure has name "ValidationError", code 422 and a non-empty ordered errors
list, all set at construction. -/
theorem approval_c7 (reg : Registry ε) (input : JsValue) (rules : List VRule)
    (ctx : JsValue) (ve : ValidationError)
    (h : validateInput reg input rules ctx = .error (.validation ve)) :
    ve.name = "ValidationError" ∧ ve.code = 422 ∧ 0 < ve.errors.length := by
  rw [validateInput] at h
  cases hr : runRules reg input ctx rules [] with
  | error e =>
    rw [hr] at h
    have : e = .validation ve := by simpa using h
    exact absurd (this ▸ hr) (runRules_no_validation reg input ctx rules [] ve)
  | ok errors =>
    rw [hr] at h
    simp only [showValidationError] at h
    by_cases hlen : errors.length > 0
    · rw [if_pos hlen] at h
      have hve : ValidationError.ofErrors errors = ve := by simpa using h
      subst hve
      exact ⟨rfl, rfl, hlen⟩
    · rw [if_neg hlen] at h
      simp at h

/-- Claim C7 witness: the failure raised at a concrete failing run carries
the fixed name, the fixed code and its non-empty errors list. -/
theorem approval_c7_witness :
    (ValidationError.ofErrors [⟨"a", "m1"⟩]).name = "ValidationError"
  ∧ (ValidationError.ofErrors [⟨"a", "m1"⟩]).code = 422
  ∧ 0 < (ValidationError.ofErrors [⟨"a", "m1"⟩]).errors.length :=
  approval_c7 sampleReg inputA [ruleF1] ctx0 (ValidationError.ofErrors [⟨"a", "m1"⟩]) rfl

/-- Claim C6: a rule list whose reached rule has an unresolvable validator
name makes validateInput throw the plain unknown-validator error for that
rule (not a validation failure), whatever comes after it. -/
theorem approval_c6 (reg : Registry ε) (input ctx : JsValue) (pre post : List VRule)
    (bad : VRule)
    (Hpre : ∀ r ∈ pre, ∃ b, ruleOutcome reg input ctx r = .ok b)
    (hbad : reg bad.validator = none) :
    validateInput reg input (pre ++ bad :: post) ctx =
      .error (.unknownValidator bad.validator)
  ∧ (VErr.unknownValidator bad.validator : VErr ε).isValidation = false := by
  constructor
  · rw [validateInput, runRules_append reg input ctx pre (bad :: post) [] Hpre, runRules]
    have hout : ruleOutcome reg input ctx bad = .error (.unknownValidator bad.validator) := by
      rw [ruleOutcome, hbad]
    rw [hout]
  · rfl

/-- Claim C6 witness: a concrete rule list with a passing rule, then a rule
naming an unregistered validator, then a further rule. -/
theorem approval_c6_witness :
    validateInput sampleReg inputA ([ruleT] ++ ruleBad :: [ruleF1]) ctx0 =
      .error (.unknownValidator "nope")
  ∧ (VErr.unknownValidator "nope" : VErr Unit).isValidation = false := by
  have h := approval_c6 sampleReg inputA ctx0 [ruleT] [ruleF1] ruleBad
    (by
      intro r hr
      simp only [List.mem_singleton] at hr
      subst hr
      exact ⟨true, rfl⟩)
    rfl
  exact h

/-- Claim C9: when earlier rules have already failed and a later rule's
validator name does not resolve, the accumulated failure entries are
discarded: the thrown value is the plain unknown-validator error, carrying
no errors list, and no ValidationError is raised in that call. -/
theorem approval_c9 (reg : Registry ε) (input ctx : JsValue) (pre post : List VRule)
    (bad r0 : VRule)
    (Hpre : ∀ r ∈ pre, ∃ b, ruleOutcome reg input ctx r = .ok b)
    (hmem : r0 ∈ pre) (hfail : ruleOutcome reg input ctx r0 = .ok false)
    (hbad : reg bad.validator = none) :
    validateInput reg input (pre ++ bad :: post) ctx =
      .error (.unknownValidator bad.validator)
  ∧ (VErr.unknownValidator bad.validator : VErr ε).carriedErrors = none
  ∧ ∀ ve, validateInput reg input (pre ++ bad :: post) ctx ≠ .error (.validation ve) := by
  have heq : validateInput reg input (pre ++ bad :: post) ctx =
      .error (.unknownValidator bad.validator) := by
    rw [validateInput, runRules_append reg input ctx pre (bad :: post) [] Hpre, runRules]
    have hout : ruleOutcome reg input ctx bad = .error (.unknownValidator bad.validator) := by
      rw [ruleOutcome, hbad]
    rw [hout]
  refine ⟨heq, rfl, ?_⟩
  intro ve
  rw [heq]
  simp

/-- Claim C9 witness: a failing rule precedes the unknown-validator rule; the
thrown value is still only the unknown-validator error. -/
theorem approval_c9_witness :
    validateInput sampleReg inputA ([ruleF1] ++ ruleBad :: [ruleT]) ctx0 =
      .error (.unknownValidator "nope")
  ∧ (VErr.unknownValidator "nope" : VErr Unit).carriedErrors = none
  ∧ ∀ ve, validateInput sampleReg inputA ([ruleF1] ++ ruleBad :: [ruleT]) ctx0 ≠
      .error (.validation ve) := by
  have h := approval_c9 sampleReg inputA ctx0 [ruleF1] [ruleT] ruleBad ruleF1
    (by
      intro r hr
      simp only [List.mem_singleton] at hr
      subst hr
      exact ⟨false, rfl⟩)
    (List.mem_singleton.mpr rfl)
    rfl
    rfl
  exact h

theorem kindMatch_ok_eq [DecidableEq κ] (f : ErrField κ) (err : JsError κ) (km : Bool)
    (h : kindMatch f err = (.ok km : Except (HThrow ε) Bool)) :
    km = strictEqName f err.name := by
  cases f with
  | str s =>
    by_cases hs : (s == err.name) = true
    · simp [kindMatch, strictEqName, hs] at h
      simp [strictEqName, hs, h]
    · simp [kindMatch, strictEqName, hs, ErrField.typeofStr] at h
      simp [strictEqName, hs, h]
  | classRef k =>
    simp [kindMatch, strictEqName, ErrField.typeofStr] at h
    simp [strictEqName, h]
  | objRef k =>
    simp [kindMatch, strictEqName, ErrField.typeofStr, instanceOf] at h

theorem ruleMatch_ok_true_iff [DecidableEq κ] (r : HandlerRule κ ε) (err : JsError κ)
    (ctx : JsValue)
    (hk : ∃ km, kindMatch r.error err = (.ok km : Except (HThrow ε) Bool))
    (hb : ∀ b, (r.options.getD ⟨none, none⟩).block = some b → ∃ v, b err ctx = .ok v) :
    (ruleMatch r err ctx = .ok true ↔
      (strictEqName r.error err.name = true
        ∧ codeMatch (r.options.getD ⟨none, none⟩).code err.code = true
        ∧ ∀ b, (r.options.getD ⟨none, none⟩).block = some b → b err ctx = .ok true)) := by
  obtain ⟨km, hkm⟩ := hk
  have hkm2 := kindMatch_ok_eq r.error err km hkm
  simp only [ruleMatch]
  rw [hkm]
  cases km with
  | false =>
    constructor
    · intro hcontra
      simp at hcontra
    · rintro ⟨h1, _, _⟩
      rw [h1] at hkm2
      simp at hkm2
  | true =>
    have hs : strictEqName r.error err.name = true := hkm2.symm
    by_cases hc : codeMatch (r.options.getD ⟨none, none⟩).code err.code = true
    · cases hblk : (r.options.getD ⟨none, none⟩).block with
      | none => simp [hc, hs, hblk]
      | some b =>
        obtain ⟨v, hv⟩ := hb b hblk
        simp [hc, hs, hblk, hv]
    · simp only [Bool.not_eq_true] at hc
      simp [hc, hs]

theorem handleError_singleton_iff [DecidableEq κ] (r : HandlerRule κ ε) (err : JsError κ)
    (ctx : JsValue) (hve : err.isVE = false) :
    (handleError err [r] ctx = .ok (some [⟨r.path, r.message⟩]) ↔
      ruleMatch r err ctx = .ok true) := by
  simp only [handleError, hve, Bool.false_eq_true, if_false]
  cases hm : ruleMatch r err ctx with
  | error t => simp [findHandler, hm]
  | ok b =>
    cases b with
    | true => simp [findHandler, hm]
    | false => simp [findHandler, hm]

/-- Claim C2 counterexample: an error that is an instance of the concrete
`CustomError` constructor, and a rule whose `error` field is that concrete
class reference. The spec-worded match succeeds, yet the engine does not
treat the rule as matching (a class reference has runtime type "function",
so the code's `instanceof` alternative, guarded by runtime type "object",
is never taken): handleError returns the unhandled sentinel. -/
theorem approval_c2_counterexample :
    specRuleMatch hRuleClassRef errCustom ctx0 = .ok true
  ∧ ruleMatch hRuleClassRef errCustom ctx0 = .ok false
  ∧ handleError errCustom [hRuleClassRef] ctx0 = .ok none := ⟨rfl, rfl, rfl⟩

/-- Claim C2 (amended): for a non-ValidationError error and a rule whose
checks evaluate without throwing, handleError treats the rule as matching
exactly when (1) the rule's error field is a string strictly equal to the
runtime error's name — the instanceof alternative requires the field to have
runtime type "object", which a concrete class reference (runtime type
"function") never has, so kind-reference rules never match — (2) options.code
is absent or equals the error's code attribute, and (3) options.block is
absent or yields true on (err, runContext). -/
theorem approval_c2_amended [DecidableEq κ] (r : HandlerRule κ ε) (err : JsError κ)
    (ctx : JsValue) (hve : err.isVE = false)
    (hk : ∃ km, kindMatch r.error err = (.ok km : Except (HThrow ε) Bool))
    (hb : ∀ b, (r.options.getD ⟨none, none⟩).block = some b → ∃ v, b err ctx = .ok v) :
    (handleError err [r] ctx = .ok (some [⟨r.path, r.message⟩]) ↔
      (strictEqName r.error err.name = true
        ∧ codeMatch (r.options.getD ⟨none, none⟩).code err.code = true
        ∧ ∀ b, (r.options.getD ⟨none, none⟩).block = some b → b err ctx = .ok true)) :=
  (handleError_singleton_iff r err ctx hve).trans (ruleMatch_ok_true_iff r err ctx hk hb)

/-- Claim C2 witness: the repository's own test case — a plain Error and a
name-keyed rule — matches, by the amended characterization. -/
theorem approval_c2_witness :
    handleError errPlain [hRuleFirst] ctx0 = .ok (some [⟨"system", "first"⟩]) := by
  have h := approval_c2_amended hRuleFirst errPlain ctx0 rfl ⟨true, rfl⟩
    (by
      intro b hb
      exact Option.noConfusion hb)
  exact h.mpr ⟨rfl, rfl, by intro b hb; exact Option.noConfusion hb⟩

theorem findHandler_skip [DecidableEq κ] (err : JsError κ) (ctx : JsValue)
    (pre rest : List (HandlerRule κ ε))
    (hpre : ∀ r ∈ pre, ruleMatch r err ctx = .ok false) :
    findHandler err ctx (pre ++ rest) = findHandler err ctx rest := by
  induction pre with
  | nil => rfl
  | cons r pre ih =>
    have h := hpre r (List.mem_cons_self r pre)
    simp only [List.cons_append, findHandler, h]
    exact ih fun r' hr' => hpre r' (List.mem_cons_of_mem r hr')

/-- Claim C3: for a non-ValidationError error, scanning stops at the first
matching rule (every earlier rule evaluating to no-match), and the result is
the single-element list built from that rule's path and message — so when
two rules match, only the first one's message is returned. -/
theorem approval_c3 [DecidableEq κ] (err : JsError κ) (ctx : JsValue)
    (pre post : List (HandlerRule κ ε)) (r : HandlerRule κ ε)
    (hve : err.isVE = false)
    (hpre : ∀ r' ∈ pre, ruleMatch r' err ctx = .ok false)
    (hr : ruleMatch r err ctx = .ok true) :
    handleError err (pre ++ r :: post) ctx = .ok (some [⟨r.path, r.message⟩]) := by
  simp only [handleError, hve, Bool.false_eq_true, if_false]
  rw [findHandler_skip err ctx pre (r :: post) hpre]
  simp [findHandler, hr]

/-- Claim C3 witness: a non-matching rule, then two rules both matching a
plain Error by kind; only the first matching rule's message is returned. -/
theorem approval_c3_witness :
    handleError errPlain [hRuleNoMatch, hRuleFirst, hRuleSecond] ctx0 =
      .ok (some [⟨"system", "first"⟩]) := by
  have h := approval_c3 errPlain ctx0 [hRuleNoMatch] [hRuleSecond] hRuleFirst rfl
    (by
      intro r' hr'
      simp only [List.mem_singleton] at hr'
      subst hr'
      rfl)
    rfl
  exact h

/-- Claim C4: handleError returns a ValidationError's own errors list
directly, unchanged, without consulting any handler rule (same result as
with no handlers at all). -/
theorem approval_c4 [DecidableEq κ] (err : JsError κ) (handlers : List (HandlerRule κ ε))
    (ctx : JsValue) (h : err.isVE = true) :
    handleError err handlers ctx = .ok (some err.errors)
  ∧ handleError err handlers ctx = handleError err [] ctx := by
  constructor <;> simp [handleError, h]

/-- Claim C4 witness: the failure raised by a concrete failing validation
run, given to handleError together with a rule list, yields exactly the
failure's own errors list. -/
theorem approval_c4_witness :
    handleError (ValidationError.toJsError (ValidationError.ofErrors [⟨"name", "must be present"⟩]))
        [hRuleFirst, hRuleNoMatch] ctx0 = .ok (some [⟨"name", "must be present"⟩])
  ∧ handleError (ValidationError.toJsError (ValidationError.ofErrors [⟨"name", "must be present"⟩]))
        [hRuleFirst, hRuleNoMatch] ctx0 =
      handleError (ValidationError.toJsError (ValidationError.ofErrors [⟨"name", "must be present"⟩]))
        ([] : List (HandlerRule String Unit)) ctx0 :=
  approval_c4 (ValidationError.toJsError (ValidationError.ofErrors [⟨"name", "must be present"⟩]))
    [hRuleFirst, hRuleNoMatch] ctx0 rfl

/-- Claim C5 counterexample: a ValidationError together with the empty
handler list — no rule matches (vacuously), yet handleError returns the
error's own errors list, not the unhandled sentinel; so the claim's "every
error value" is too wide. -/
theorem approval_c5_counterexample :
    handleError (ValidationError.toJsError (ValidationError.ofErrors [⟨"name", "must be present"⟩]))
        ([] : List (HandlerRule String Unit)) ctx0 = .ok (some [⟨"name", "must be present"⟩])
  ∧ (.ok (some [(⟨"name", "must be present"⟩ : FieldError)]) :
      Except (HThrow Unit) (Option (List FieldError))) ≠ .ok none := by
  exact ⟨rfl, by simp⟩

/-- Claim C5 (amended): for every non-ValidationError error value and every
handler list whose rules all evaluate to no-match (in particular the empty
list), handleError returns the unhandled sentinel (JS null) rather than
throwing; the sentinel is distinct from the empty list, which is never the
output of a match since a match yields exactly one entry. -/
theorem approval_c5 [DecidableEq κ] (err : JsError κ) (handlers : List (HandlerRule κ ε))
    (ctx : JsValue) (hve : err.isVE = false)
    (hall : ∀ r ∈ handlers, ruleMatch r err ctx = .ok false) :
    handleError err handlers ctx = .ok none
  ∧ ((.ok none : Except (HThrow ε) (Option (List FieldError))) ≠ .ok (some [])) := by
  constructor
  · simp only [handleError, hve, Bool.false_eq_true, if_false]
    have h := findHandler_skip err ctx handlers [] hall
    rw [List.append_nil] at h
    rw [h]
    rfl
  · simp

/-- Claim C5 witness: a plain Error with a non-matching rule list and with
the empty rule list; both give the sentinel. -/
theorem approval_c5_witness :
    handleError errPlain [hRuleNoMatch] ctx0 = .ok none
  ∧ ((.ok none : Except (HThrow Unit) (Option (List FieldError))) ≠ .ok (some [])) :=
  approval_c5 errPlain [hRuleNoMatch] ctx0 rfl
    (by
      intro r hr
      simp only [List.mem_singleton] at hr
      subst hr
      rfl)

/-- Claim C8: the built-in format validator wrappers in the sources (isFQDN
and isURL) return false, and never throw, on every value of the wrong basic
type — whatever the external core predicates would do: the core is not even
consulted. -/
theorem approval_c8 (coreF : String → Bool → Bool → Bool → Except ε Bool)
    (coreU : String → URLCoreOpts → Except ε Bool) (v : JsValue)
    (oF : FQDNOpts) (oU : URLOpts) (h : v.isStr = false) :
    isFQDN coreF v oF = .ok false ∧ isURL coreU v oU = .ok false := by
  cases v with
  | str s => simp [JsValue.isStr] at h
  | null => exact ⟨rfl, rfl⟩
  | bool b => exact ⟨rfl, rfl⟩
  | num n => exact ⟨rfl, rfl⟩
  | arr elems => exact ⟨rfl, rfl⟩
  | obj fields => exact ⟨rfl, rfl⟩

/-- Claim C8 witness: a number given to both wrappers, with cores that throw
on every string, still yields false without throwing. -/
theorem approval_c8_witness :
    isFQDN throwingFQDNCore (.num 42) ⟨none, none, none⟩ = .ok false
  ∧ isURL throwingURLCore (.num 42) ⟨none, none, none, none, none, none, none⟩ = .ok false :=
  approval_c8 throwingFQDNCore throwingURLCore (.num 42)
    ⟨none, none, none⟩ ⟨none, none, none, none, none, none, none⟩ rfl

/-- Claim C10: isValid delegates unconditionally to options.block — with a
block present the outcome is exactly the block's outcome on
(value, runContext); with no block it rejects (the call on a missing
function) and in particular never returns false. -/
theorem approval_c10 (value ctx : JsValue) (opts : IsValidOpts ε) :
    (∀ b, opts.block = some b →
      (∀ v, isValid value opts ctx = .ok v ↔ b value ctx = .ok v)
      ∧ (∀ e, isValid value opts ctx = .error (.blockThrew e) ↔ b value ctx = .error e))
  ∧ (opts.block = none →
      isValid value opts ctx = .error .notAFunction
      ∧ ∀ v, ¬ isValid value opts ctx = .ok v) := by
  constructor
  · intro b hb
    constructor
    · intro v
      simp only [isValid, hb]
      cases hv : b value ctx <;> simp
    · intro e
      simp only [isValid, hb]
      cases hv : b value ctx <;> simp
  · intro hb
    simp [isValid, hb]

/-- Claim C10 witness: a block yielding true is delegated to; absent block
rejects. -/
theorem approval_c10_witness :
    isValid (.str "x") ⟨some blockTrue⟩ ctx0 = .ok true
  ∧ isValid (.str "x") (⟨none⟩ : IsValidOpts Unit) ctx0 = .error .notAFunction := by
  constructor
  · exact (((approval_c10 (.str "x") ctx0 ⟨some blockTrue⟩).1 blockTrue rfl).1 true).mpr rfl
  · exact ((approval_c10 (.str "x") ctx0 (⟨none⟩ : IsValidOpts Unit)).2 rfl).1
